import Mathlib

/-!
Verification of the porter TCP connect scanner (src/porter.py) against its
specification.  The Python source is shallowly embedded: pure functions become
Lean functions, the asyncio scanner becomes an explicit fold over probe-result
events, and OS-level effects (the TCP connect attempt, getaddrinfo, literal-IP
parsing) become oracle parameters describing what the operating system returned.
Machine arithmetic is Nat with explicit masking by 2^32 where the source masks.
-/

/-! ## Probe outcomes (the strings "open" / "closed" / "filtered" / "timeout") -/

inductive Outcome where
  | opened
  | closed
  | filtered
  | timeout
deriving DecidableEq, Repr

/-! ## Errno constants (Linux values, as used via the getattr defaults) -/

def ECONNREFUSED : Nat := 111

/-- `_RETRYABLE_ERRNOS` from porter.py: EADDRNOTAVAIL, EADDRINUSE, ENOBUFS,
EMFILE, ENFILE, ETIMEDOUT and the Windows WSA variants. -/
def _RETRYABLE_ERRNOS : List Nat :=
  [99, 98, 105, 24, 23, 110, 10048, 10049, 10055, 10060, 10024]

/-! ## connect_probe

The OS-visible result of the single connect attempt inside `connect_probe`:
it either succeeds, hits the `asyncio.wait_for` deadline, raises
`ConnectionRefusedError`, or raises some other `OSError` carrying an optional
errno (`getattr(e, "errno", None)`). -/

inductive ConnectResult where
  | success
  | timedOut
  | connectionRefused
  | osError (code : Option Nat)
deriving DecidableEq, Repr

/-- Embedding of the classification logic of `connect_probe` (porter.py
lines 297-318): the outcome returned for each possible result of the
underlying connect attempt. -/
def connect_probe : ConnectResult → Outcome
  | .success => .opened
  | .timedOut => .timeout
  | .connectionRefused => .closed
  | .osError code =>
      if code = some ECONNREFUSED ∨ code = some 10061 then .closed
      else
        match code with
        | some c => if c ∈ _RETRYABLE_ERRNOS then .timeout else .filtered
        | none => .filtered

/-! ## Jitter -/

/-- The 32-bit hash computed by `_jitter_seconds`: fold each character of the
IP with `x = ((x << 5) - x) + ord(ch)` masked to 32 bits, then XOR with
`(port * 2654435761) & 0xFFFFFFFF`. -/
def jitterHash (ip : String) (port : Nat) : Nat :=
  let x := ip.data.foldl (fun x ch => (((x <<< 5) - x) + ch.toNat) % 4294967296) 0
  Nat.xor x ((port * 2654435761) % 4294967296)

/-- The jitter delay of `_jitter_seconds` in microseconds: the source returns
`(x % 2001) / 1_000_000.0` seconds, i.e. `x % 2001` microseconds. -/
def _jitter_seconds_us (ip : String) (port : Nat) : Nat :=
  jitterHash ip port % 2001

/-- The spec's description of the same quantity: fold each character via
`hash = hash*31 + charcode` (mod 2^32), XOR with `port * 2654435761`
(mod 2^32), take `hash mod 2001` microseconds. -/
def jitterSpecUs (ip : String) (port : Nat) : Nat :=
  let h := ip.data.foldl (fun h ch => (h * 31 + ch.toNat) % 4294967296) 0
  Nat.xor h ((port * 2654435761) % 4294967296) % 2001

/-! ## Port ordering -/

/-- `POPULAR_PORTS` from porter.py. -/
def POPULAR_PORTS : List Nat :=
  [80, 443, 22, 3389, 445, 1433, 3306, 53, 25, 110, 143, 995, 993, 587, 465,
   21, 23, 8080, 8443, 6379, 27017, 9200, 5000, 8000, 8888, 5900, 5901, 389,
   636, 1521, 2049, 111, 139, 135, 7001, 8081, 8082, 15672, 5672, 11211, 514,
   853, 8530, 4369, 5432, 27018, 27019, 25565]

/-- The sort key of `order_ports`: `(0, rank[p])` for popular ports,
`(1, p)` otherwise (`rank` maps each popular port to its index in
`POPULAR_PORTS`). -/
def portKey (p : Nat) : Nat × Nat :=
  if p ∈ POPULAR_PORTS then (0, List.indexOf p POPULAR_PORTS) else (1, p)

/-- Lexicographic ≤ on key pairs, the order Python's tuple comparison gives
`sorted`. -/
def pairLe (x y : Nat × Nat) : Bool :=
  x.1 < y.1 || (x.1 = y.1 && x.2 ≤ y.2)

/-- Embedding of `order_ports` (porter.py lines 204-206): a stable sort of the
ports by the popular-first key. -/
def order_ports (ports : List Nat) : List Nat :=
  ports.mergeSort (fun a b => pairLe (portKey a) (portKey b))

theorem pairLe_trans (a b c : Nat × Nat) :
    pairLe a b = true → pairLe b c = true → pairLe a c = true := by
  simp only [pairLe, Bool.or_eq_true, decide_eq_true_eq, Bool.and_eq_true]
  omega

theorem pairLe_total (a b : Nat × Nat) :
    (pairLe a b || pairLe b a) = true := by
  simp only [pairLe, Bool.or_eq_true, decide_eq_true_eq, Bool.and_eq_true]
  omega

theorem order_ports_sorted (l : List Nat) :
    (order_ports l).Pairwise (fun a b => pairLe (portKey a) (portKey b) = true) :=
  List.sorted_mergeSort
    (fun a b c => pairLe_trans (portKey a) (portKey b) (portKey c))
    (fun a b => pairLe_total (portKey a) (portKey b)) l

theorem order_ports_perm (l : List Nat) : (order_ports l).Perm l :=
  List.mergeSort_perm l _

theorem POPULAR_PORTS_nodup : POPULAR_PORTS.Nodup := by decide

theorem portKey_inj {a b : Nat} (h : portKey a = portKey b) : a = b := by
  by_cases ha : a ∈ POPULAR_PORTS <;> by_cases hb : b ∈ POPULAR_PORTS <;>
    simp only [portKey, ha, hb, if_true, if_false, Prod.mk.injEq] at h
  · exact (List.indexOf_inj ha hb).mp h.2
  · exact absurd h.1 (by decide)
  · exact absurd h.1 (by decide)
  · exact h.2

theorem outcome_cases (o : Outcome) :
    o = .opened ∨ o = .closed ∨ o = .filtered ∨ o = .timeout := by
  cases o <;> simp

theorem pairLe_lt_of_ne {a b c d : Nat} (h : pairLe (a, b) (c, d) = true)
    (hne : (a, b) ≠ (c, d)) : a < c ∨ (a = c ∧ b < d) := by
  simp only [pairLe, Bool.or_eq_true, decide_eq_true_eq, Bool.and_eq_true] at h
  simp only [ne_eq, Prod.mk.injEq, not_and] at hne
  omega

/-- C1: `connect_probe` classifies every result of the underlying connect
attempt: success → open; deadline elapsed → timeout; `ConnectionRefusedError`
or errno ECONNREFUSED / 10061 → closed; an errno in the retryable
local-resource table → timeout; any other OS error → filtered; and it never
produces a value outside {open, closed, filtered, timeout}. -/
theorem connect_probe_classification :
    connect_probe .success = .opened ∧
    connect_probe .timedOut = .timeout ∧
    connect_probe .connectionRefused = .closed ∧
    (∀ c : Option Nat,
      connect_probe (.osError c) = .closed ↔ c = some ECONNREFUSED ∨ c = some 10061) ∧
    (∀ c ∈ _RETRYABLE_ERRNOS, connect_probe (.osError (some c)) = .timeout) ∧
    (∀ c : Option Nat,
      (∀ x, c = some x → x ≠ ECONNREFUSED ∧ x ≠ 10061 ∧ x ∉ _RETRYABLE_ERRNOS) →
      connect_probe (.osError c) = .filtered) ∧
    (∀ r : ConnectResult,
      connect_probe r = .opened ∨ connect_probe r = .closed ∨
      connect_probe r = .filtered ∨ connect_probe r = .timeout) := by
  refine ⟨rfl, rfl, rfl, ?_, ?_, ?_, fun r => outcome_cases _⟩
  · intro c
    by_cases h : c = some ECONNREFUSED ∨ c = some 10061
    · simp only [connect_probe, if_pos h]
      exact iff_of_true trivial h
    · simp only [connect_probe, if_neg h]
      cases c with
      | none => exact iff_of_false (by simp) h
      | some x =>
          by_cases hr : x ∈ _RETRYABLE_ERRNOS
          · show (if x ∈ _RETRYABLE_ERRNOS then Outcome.timeout else Outcome.filtered)
                = Outcome.closed ↔ _
            rw [if_pos hr]
            exact iff_of_false (by simp) h
          · show (if x ∈ _RETRYABLE_ERRNOS then Outcome.timeout else Outcome.filtered)
                = Outcome.closed ↔ _
            rw [if_neg hr]
            exact iff_of_false (by simp) h
  · intro c hc
    have h : ¬(some c = some ECONNREFUSED ∨ some c = some 10061) := by
      rintro (h | h) <;> injection h with h <;> subst h <;> revert hc <;> decide
    simp only [connect_probe, if_neg h]
    show (if c ∈ _RETRYABLE_ERRNOS then Outcome.timeout else Outcome.filtered)
        = Outcome.timeout
    exact if_pos hc
  · intro c hall
    cases c with
    | none => simp [connect_probe]
    | some x =>
        obtain ⟨h1, h2, h3⟩ := hall x rfl
        have h : ¬(some x = some ECONNREFUSED ∨ some x = some 10061) := by
          rintro (h | h) <;> injection h with h
          · exact h1 h
          · exact h2 h
        simp only [connect_probe, if_neg h]
        show (if x ∈ _RETRYABLE_ERRNOS then Outcome.timeout else Outcome.filtered)
            = Outcome.filtered
        exact if_neg h3

/-- Witness for C1 at a concrete retryable errno (EMFILE = 24). -/
theorem connect_probe_classification_witness :
    connect_probe (.osError (some 24)) = .timeout :=
  connect_probe_classification.2.2.2.2.1 24 (by decide)

/-- C7: the jitter delay equals the spec's hash formula
(fold `hash*31 + charcode` mod 2^32, XOR with `port * 2654435761` mod 2^32,
take mod 2001 microseconds), is a pure function of (ip, port) — hence
deterministic across repeated calls — and always lies in [0, 2000]
microseconds, i.e. the closed range [0ms, 2ms]. -/
theorem jitter_matches_spec_and_bounded (ip : String) (port : Nat) :
    _jitter_seconds_us ip port = jitterSpecUs ip port ∧
    _jitter_seconds_us ip port ≤ 2000 := by
  constructor
  · have hf : (fun (x : Nat) (ch : Char) => (((x <<< 5) - x) + ch.toNat) % 4294967296)
        = (fun (x : Nat) (ch : Char) => (x * 31 + ch.toNat) % 4294967296) := by
      funext x ch
      rw [Nat.shiftLeft_eq]
      norm_num
      omega
    simp only [_jitter_seconds_us, jitterHash, jitterSpecUs, hf]
  · exact Nat.le_of_lt_succ (Nat.mod_lt _ (by norm_num))

/-- C5: on a deduplicated port list, `order_ports` puts every popular port
before every non-popular port, keeps popular ports in the popular list's
original relative order, and lists the remaining ports in strictly ascending
numeric order. -/
theorem order_ports_priority_ordering (l : List Nat) (hl : l.Nodup) :
    ∀ i j (hi : i < (order_ports l).length) (hj : j < (order_ports l).length), i < j →
      (((order_ports l)[i] ∈ POPULAR_PORTS ∧ (order_ports l)[j] ∈ POPULAR_PORTS) →
          List.indexOf (order_ports l)[i] POPULAR_PORTS <
            List.indexOf (order_ports l)[j] POPULAR_PORTS) ∧
      (((order_ports l)[i] ∉ POPULAR_PORTS ∧ (order_ports l)[j] ∉ POPULAR_PORTS) →
          (order_ports l)[i] < (order_ports l)[j]) ∧
      ¬((order_ports l)[i] ∉ POPULAR_PORTS ∧ (order_ports l)[j] ∈ POPULAR_PORTS) := by
  intro i j hi hj hij
  have hpw := List.pairwise_iff_getElem.mp (order_ports_sorted l) i j hi hj hij
  have hnd : (order_ports l).Nodup := ((order_ports_perm l).nodup_iff).mpr hl
  have hne : (order_ports l)[i] ≠ (order_ports l)[j] := by
    intro he
    have h2 := (List.Nodup.get_inj_iff hnd
      (i := ⟨i, hi⟩) (j := ⟨j, hj⟩)).mp (by simpa using he)
    have : i = j := congrArg Fin.val h2
    omega
  have hkne : portKey ((order_ports l)[i]) ≠ portKey ((order_ports l)[j]) :=
    fun h => hne (portKey_inj h)
  refine ⟨?_, ?_, ?_⟩
  · rintro ⟨hpi, hpj⟩
    rw [show portKey ((order_ports l)[i])
          = (0, List.indexOf ((order_ports l)[i]) POPULAR_PORTS) from if_pos hpi,
        show portKey ((order_ports l)[j])
          = (0, List.indexOf ((order_ports l)[j]) POPULAR_PORTS) from if_pos hpj]
      at hpw hkne
    have := pairLe_lt_of_ne hpw hkne
    omega
  · rintro ⟨hni, hnj⟩
    rw [show portKey ((order_ports l)[i]) = (1, (order_ports l)[i]) from if_neg hni,
        show portKey ((order_ports l)[j]) = (1, (order_ports l)[j]) from if_neg hnj]
      at hpw hkne
    have := pairLe_lt_of_ne hpw hkne
    omega
  · rintro ⟨hni, hpj⟩
    rw [show portKey ((order_ports l)[i]) = (1, (order_ports l)[i]) from if_neg hni,
        show portKey ((order_ports l)[j])
          = (0, List.indexOf ((order_ports l)[j]) POPULAR_PORTS) from if_pos hpj]
      at hpw hkne
    have := pairLe_lt_of_ne hpw hkne
    omega

/-- Witness for C5 at the concrete deduplicated port list [8080, 22, 9999]. -/
theorem order_ports_priority_ordering_witness :
    ([8080, 22, 9999] : List Nat).Nodup ∧
    (∀ i j (hi : i < (order_ports [8080, 22, 9999]).length)
        (hj : j < (order_ports [8080, 22, 9999]).length), i < j →
      (((order_ports [8080, 22, 9999])[i] ∈ POPULAR_PORTS ∧
          (order_ports [8080, 22, 9999])[j] ∈ POPULAR_PORTS) →
          List.indexOf (order_ports [8080, 22, 9999])[i] POPULAR_PORTS <
            List.indexOf (order_ports [8080, 22, 9999])[j] POPULAR_PORTS) ∧
      (((order_ports [8080, 22, 9999])[i] ∉ POPULAR_PORTS ∧
          (order_ports [8080, 22, 9999])[j] ∉ POPULAR_PORTS) →
          (order_ports [8080, 22, 9999])[i] < (order_ports [8080, 22, 9999])[j]) ∧
      ¬((order_ports [8080, 22, 9999])[i] ∉ POPULAR_PORTS ∧
          (order_ports [8080, 22, 9999])[j] ∈ POPULAR_PORTS)) :=
  ⟨by decide, order_ports_priority_ordering [8080, 22, 9999] (by decide)⟩

/-- C10: `order_ports` is a permutation of its input — same ports, each exactly
once, none dropped, none added. -/
theorem order_ports_is_permutation (l : List Nat) (hl : l.Nodup) :
    (order_ports l).Perm l ∧ (order_ports l).Nodup ∧
    (∀ p, p ∈ order_ports l ↔ p ∈ l) ∧
    (∀ p, (order_ports l).count p = l.count p) :=
  ⟨order_ports_perm l, ((order_ports_perm l).nodup_iff).mpr hl,
    fun _ => (order_ports_perm l).mem_iff, fun p => (order_ports_perm l).count_eq p⟩

/-- Witness for C10 at the concrete distinct port list [22, 80, 9999]. -/
theorem order_ports_is_permutation_witness :
    ([22, 80, 9999] : List Nat).Nodup ∧
    ((order_ports [22, 80, 9999]).Perm [22, 80, 9999] ∧
     (order_ports [22, 80, 9999]).Nodup ∧
     (∀ p, p ∈ order_ports [22, 80, 9999] ↔ p ∈ ([22, 80, 9999] : List Nat)) ∧
     (∀ p, (order_ports [22, 80, 9999]).count p = ([22, 80, 9999] : List Nat).count p)) :=
  ⟨by decide, order_ports_is_permutation [22, 80, 9999] (by decide)⟩

/-! ## Scanner state and the worker update

The asyncio workers of `Scanner._run_pass` / `Scanner.run` mutate the shared
scan state once per completed probe, with no suspension point between the
outcome test and the updates, so a pass is embedded as a fold of the state
update over the sequence of completed probe events (in whatever completion
order the scheduler produced).  Python sets become duplicate-free lists with
membership-guarded insertion. -/

/-- A (target index, ip, port) triple, the element type of `Scanner.timeouts`. -/
abbrev Triple := Nat × String × Nat

/-- One completed probe: which task it was and the outcome `connect_probe`
returned for it. -/
structure Event where
  ti : Nat
  ip : String
  port : Nat
  state : Outcome
deriving DecidableEq, Repr

/-- The aggregate state the workers mutate (`Scanner.__init__`,
porter.py lines 342-348). -/
structure ScanState where
  opens_by_target : List (List Nat)
  timeouts : List Triple
  probes_done : Nat
  timeout_count : Nat
  open_total : Nat
deriving DecidableEq, Repr

/-- The initial scan state for `n` targets. -/
def initState (n : Nat) : ScanState :=
  ⟨List.replicate n [], [], 0, 0, 0⟩

/-- The body of `worker` / `worker2` after `connect_probe` returns
(porter.py lines 439-452 and 510-519): bump `probes_done`; on "open", record
the port for the target (if not already recorded) and bump `open_total`; on
"timeout", bump `timeout_count` and, in the fast pass with retry enabled, add
the triple to the retry set. -/
def workerStep (retry : Bool) (passId : Nat) (s : ScanState) (ev : Event) : ScanState :=
  match ev.state with
  | .opened =>
      if ev.port ∈ s.opens_by_target.getD ev.ti [] then
        { s with probes_done := s.probes_done + 1 }
      else
        { s with
          probes_done := s.probes_done + 1,
          opens_by_target :=
            s.opens_by_target.set ev.ti (s.opens_by_target.getD ev.ti [] ++ [ev.port]),
          open_total := s.open_total + 1 }
  | .timeout =>
      if retry ∧ passId = 1 then
        if (ev.ti, ev.ip, ev.port) ∈ s.timeouts then
          { s with probes_done := s.probes_done + 1, timeout_count := s.timeout_count + 1 }
        else
          { s with
            probes_done := s.probes_done + 1
            timeout_count := s.timeout_count + 1
            timeouts := s.timeouts ++ [(ev.ti, ev.ip, ev.port)] }
      else
        { s with probes_done := s.probes_done + 1, timeout_count := s.timeout_count + 1 }
  | _ => { s with probes_done := s.probes_done + 1 }

/-- One pass of the scanner: fold the worker update over the pass's completed
probe events. -/
def runPass (retry : Bool) (passId : Nat) (E : List Event) (s : ScanState) : ScanState :=
  E.foldl (workerStep retry passId) s

/-- The whole of `Scanner.run` after resolution (porter.py lines 480-529):
run the fast pass, then — only when retry is enabled and the retry set is
non-empty — run the retry pass over the retry set.  `its` is the iteration
order in which Python enumerates the `timeouts` set (an arbitrary permutation
of its contents) and `f` gives each retried probe's outcome. -/
def runScan (retry : Bool) (E1 : List Event) (its : List Triple)
    (f : Triple → Outcome) (n : Nat) : ScanState :=
  let s1 := runPass retry 1 E1 (initState n)
  if retry = true ∧ s1.timeouts ≠ [] then
    runPass retry 2 (its.map (fun tr => ⟨tr.1, tr.2.1, tr.2.2, f tr⟩)) s1
  else s1

/-! ### Worker-step lemmas -/

theorem workerStep_probes_done (retry : Bool) (passId : Nat) (s : ScanState) (ev : Event) :
    (workerStep retry passId s ev).probes_done = s.probes_done + 1 := by
  cases hst : ev.state <;> simp only [workerStep, hst] <;> (try split) <;> (try split) <;> rfl

theorem sum_map_length_set_append (l : List (List Nat)) (ti p : Nat)
    (h : ti < l.length) :
    ((l.set ti (l.getD ti [] ++ [p])).map List.length).sum
      = (l.map List.length).sum + 1 := by
  induction l generalizing ti with
  | nil => simp at h
  | cons a t ih =>
      cases ti with
      | zero => simp [List.getD_cons_zero]; omega
      | succ k =>
          simp only [List.getD_cons_succ, List.set_cons_succ, List.map_cons, List.sum_cons]
          have := ih k (by simpa using h)
          omega

/-- The per-state invariant behind C2: the per-target open lists stay
duplicate-free and `open_total` counts exactly their total size. -/
def OpensInv (n : Nat) (s : ScanState) : Prop :=
  s.opens_by_target.length = n ∧
  (∀ l ∈ s.opens_by_target, l.Nodup) ∧
  s.open_total = (s.opens_by_target.map List.length).sum

theorem workerStep_opens_inv {n : Nat} {s : ScanState} (retry : Bool) (passId : Nat)
    {ev : Event} (hs : OpensInv n s) (hti : ev.ti < n) :
    OpensInv n (workerStep retry passId s ev) := by
  obtain ⟨hlen, hnd, htot⟩ := hs
  cases hst : ev.state with
  | opened =>
      by_cases hm : ev.port ∈ s.opens_by_target.getD ev.ti []
      · simp only [workerStep, hst, if_pos hm]
        exact ⟨hlen, hnd, htot⟩
      · simp only [workerStep, hst, if_neg hm]
        have hlt : ev.ti < s.opens_by_target.length := by omega
        refine ⟨?_, ?_, ?_⟩
        · show (s.opens_by_target.set ev.ti _).length = n
          rw [List.length_set]
          exact hlen
        · intro l hl
          rcases List.mem_or_eq_of_mem_set hl with h | h
          · exact hnd l h
          · subst h
            have hmem : s.opens_by_target.getD ev.ti [] ∈ s.opens_by_target := by
              rw [List.getD_eq_getElem s.opens_by_target [] hlt]
              exact List.getElem_mem hlt
            simp only [List.nodup_append, List.nodup_cons, List.not_mem_nil,
              not_false_eq_true, List.nodup_nil, and_true, true_and]
            exact ⟨hnd _ hmem, by simpa [List.disjoint_singleton] using hm⟩
        · show s.open_total + 1
              = ((s.opens_by_target.set ev.ti
                  (s.opens_by_target.getD ev.ti [] ++ [ev.port])).map List.length).sum
          rw [sum_map_length_set_append s.opens_by_target ev.ti ev.port hlt]
          omega
  | timeout =>
      simp only [workerStep, hst]
      split
      · split
        · exact ⟨hlen, hnd, htot⟩
        · exact ⟨hlen, hnd, htot⟩
      · exact ⟨hlen, hnd, htot⟩
  | closed =>
      simp only [workerStep, hst]
      exact ⟨hlen, hnd, htot⟩
  | filtered =>
      simp only [workerStep, hst]
      exact ⟨hlen, hnd, htot⟩

theorem runPass_opens_inv {n : Nat} (retry : Bool) (passId : Nat) (E : List Event)
    (s : ScanState) (hs : OpensInv n s) (hE : ∀ ev ∈ E, ev.ti < n) :
    OpensInv n (runPass retry passId E s) := by
  induction E generalizing s with
  | nil => exact hs
  | cons e t ih =>
      exact ih _ (workerStep_opens_inv retry passId hs (hE e (by simp)))
        (fun ev h => hE ev (by simp [h]))

theorem runPass_probes_done (retry : Bool) (passId : Nat) (E : List Event) (s : ScanState) :
    (runPass retry passId E s).probes_done = s.probes_done + E.length := by
  induction E generalizing s with
  | nil => rfl
  | cons e t ih =>
      show (runPass retry passId t (workerStep retry passId s e)).probes_done = _
      rw [ih, workerStep_probes_done]
      simp; omega

/-! ### Retry-set lemmas -/

theorem workerStep_timeouts_mem_iff (retry : Bool) (passId : Nat) (s : ScanState)
    (ev : Event) (tr : Triple) :
    tr ∈ (workerStep retry passId s ev).timeouts ↔
      tr ∈ s.timeouts ∨
        (retry = true ∧ passId = 1 ∧ ev.state = .timeout ∧ (ev.ti, ev.ip, ev.port) = tr) := by
  cases hst : ev.state with
  | opened => simp only [workerStep, hst]; split <;> simp
  | closed => simp only [workerStep, hst]; simp
  | filtered => simp only [workerStep, hst]; simp
  | timeout =>
      simp only [workerStep, hst]
      by_cases hc : retry = true ∧ passId = 1
      · by_cases hm : (ev.ti, ev.ip, ev.port) ∈ s.timeouts
        · rw [if_pos hc, if_pos hm]
          constructor
          · exact Or.inl
          · rintro (h | ⟨-, -, -, h⟩)
            · exact h
            · exact h ▸ hm
        · rw [if_pos hc, if_neg hm]
          show tr ∈ s.timeouts ++ [(ev.ti, ev.ip, ev.port)] ↔ _
          rw [List.mem_append, List.mem_singleton]
          constructor
          · rintro (h | h)
            · exact Or.inl h
            · exact Or.inr ⟨hc.1, hc.2, trivial, h.symm⟩
          · rintro (h | ⟨-, -, -, h⟩)
            · exact Or.inl h
            · exact Or.inr h.symm
      · rw [if_neg hc]
        constructor
        · exact Or.inl
        · rintro (h | ⟨h1, h2, -, -⟩)
          · exact h
          · exact absurd ⟨h1, h2⟩ hc

theorem workerStep_timeouts_not_pass1 (retry : Bool) (passId : Nat) (s : ScanState)
    (ev : Event) (h : ¬(retry = true ∧ passId = 1)) :
    (workerStep retry passId s ev).timeouts = s.timeouts := by
  cases hst : ev.state with
  | opened => simp only [workerStep, hst]; split <;> rfl
  | closed => simp only [workerStep, hst]
  | filtered => simp only [workerStep, hst]
  | timeout => simp only [workerStep, hst]; rw [if_neg h]

theorem workerStep_timeouts_nodup (retry : Bool) (passId : Nat) (s : ScanState)
    (ev : Event) (h : s.timeouts.Nodup) :
    (workerStep retry passId s ev).timeouts.Nodup := by
  cases hst : ev.state with
  | opened => simp only [workerStep, hst]; split <;> exact h
  | closed => simp only [workerStep, hst]; exact h
  | filtered => simp only [workerStep, hst]; exact h
  | timeout =>
      simp only [workerStep, hst]
      split
      · by_cases hm : (ev.ti, ev.ip, ev.port) ∈ s.timeouts
        · rw [if_pos hm]; exact h
        · rw [if_neg hm]
          show (s.timeouts ++ [(ev.ti, ev.ip, ev.port)]).Nodup
          simp only [List.nodup_append, List.nodup_cons, List.not_mem_nil,
            not_false_eq_true, List.nodup_nil, and_true, true_and]
          exact ⟨h, by simpa [List.disjoint_singleton] using hm⟩
      · exact h

theorem runPass_timeouts_not_pass1 (retry : Bool) (passId : Nat) (E : List Event)
    (s : ScanState) (h : ¬(retry = true ∧ passId = 1)) :
    (runPass retry passId E s).timeouts = s.timeouts := by
  induction E generalizing s with
  | nil => rfl
  | cons e t ih =>
      show (runPass retry passId t (workerStep retry passId s e)).timeouts = _
      rw [ih, workerStep_timeouts_not_pass1 retry passId s e h]

theorem runPass_timeouts_nodup (retry : Bool) (passId : Nat) (E : List Event)
    (s : ScanState) (h : s.timeouts.Nodup) :
    (runPass retry passId E s).timeouts.Nodup := by
  induction E generalizing s with
  | nil => exact h
  | cons e t ih => exact ih _ (workerStep_timeouts_nodup retry passId s e h)

theorem runPass_timeouts_mem_iff (retry : Bool) (E : List Event) (s : ScanState)
    (tr : Triple) :
    tr ∈ (runPass retry 1 E s).timeouts ↔
      tr ∈ s.timeouts ∨
        (retry = true ∧ ∃ ev ∈ E, ev.state = .timeout ∧ (ev.ti, ev.ip, ev.port) = tr) := by
  induction E generalizing s with
  | nil => simp [runPass]
  | cons e t ih =>
      show tr ∈ (runPass retry 1 t (workerStep retry 1 s e)).timeouts ↔ _
      rw [ih, workerStep_timeouts_mem_iff retry 1 s e tr]
      simp only [List.mem_cons]
      constructor
      · rintro ((h | ⟨h1, -, h3, h4⟩) | ⟨h1, ev, hev, h3, h4⟩)
        · exact Or.inl h
        · exact Or.inr ⟨h1, e, Or.inl rfl, h3, h4⟩
        · exact Or.inr ⟨h1, ev, Or.inr hev, h3, h4⟩
      · rintro (h | ⟨h1, ev, (rfl | hev), h3, h4⟩)
        · exact Or.inl (Or.inl h)
        · exact Or.inl (Or.inr ⟨h1, trivial, h3, h4⟩)
        · exact Or.inr ⟨h1, ev, hev, h3, h4⟩

/-- A concrete IP string used by the witness runs. -/
def ipA : String := "10.0.0.1"

theorem count_one_of_nodup {α : Type} [BEq α] [LawfulBEq α] (l : List α) (a : α)
    (hnd : l.Nodup) (ha : a ∈ l) : l.count a = 1 := by
  induction l with
  | nil => simp at ha
  | cons b t ih =>
      rw [List.nodup_cons] at hnd
      rcases List.mem_cons.mp ha with rfl | ha2
      · rw [List.count_cons_self]
        have h0 : t.count a = 0 := List.count_eq_zero.mpr hnd.1
        omega
      · have hne : a ≠ b := fun h => hnd.1 (h ▸ ha2)
        rw [List.count_cons_of_ne hne]
        exact ih hnd.2 ha2

/-- C2: over the entire run (fast pass and retry pass), a port is added to a
target's open-port list at most once (the lists stay duplicate-free) and the
open total counts each recorded (target, port) pair exactly once, no matter
how many IPs or passes report it open. -/
theorem open_port_recorded_once (retry : Bool) (E1 : List Event) (its : List Triple)
    (f : Triple → Outcome) (n : Nat)
    (hE : ∀ ev ∈ E1, ev.ti < n) (hits : ∀ tr ∈ its, tr.1 < n) :
    (∀ l ∈ (runScan retry E1 its f n).opens_by_target, l.Nodup) ∧
    (runScan retry E1 its f n).open_total
      = ((runScan retry E1 its f n).opens_by_target.map List.length).sum := by
  have h0 : OpensInv n (initState n) := by
    refine ⟨by simp [initState], ?_, by simp [initState]⟩
    intro l hl
    rw [List.eq_of_mem_replicate hl]
    exact List.nodup_nil
  have h1 := runPass_opens_inv retry 1 E1 (initState n) h0 hE
  have hfin : OpensInv n (runScan retry E1 its f n) := by
    simp only [runScan]
    split
    · refine runPass_opens_inv retry 2 _ _ h1 ?_
      intro ev hev
      simp only [List.mem_map] at hev
      obtain ⟨tr, htr, rfl⟩ := hev
      exact hits tr htr
    · exact h1
  exact ⟨hfin.2.1, hfin.2.2⟩

/-- Witness for C2: a run where the same (target, port) pair is reported open
twice still records it once. -/
theorem open_port_recorded_once_witness :
    (∀ ev ∈ [Event.mk 0 ipA 80 .opened, Event.mk 0 ipA 80 .opened], ev.ti < 1) ∧
    (∀ tr ∈ ([] : List Triple), tr.1 < 1) ∧
    ((∀ l ∈ (runScan true [Event.mk 0 ipA 80 .opened, Event.mk 0 ipA 80 .opened]
                [] (fun _ => .closed) 1).opens_by_target, l.Nodup) ∧
      (runScan true [Event.mk 0 ipA 80 .opened, Event.mk 0 ipA 80 .opened]
          [] (fun _ => .closed) 1).open_total
        = ((runScan true [Event.mk 0 ipA 80 .opened, Event.mk 0 ipA 80 .opened]
            [] (fun _ => .closed) 1).opens_by_target.map List.length).sum) :=
  ⟨by decide, by decide,
    open_port_recorded_once true [Event.mk 0 ipA 80 .opened, Event.mk 0 ipA 80 .opened]
      [] (fun _ => .closed) 1 (by decide) (by decide)⟩

/-- C3: the retry set holds exactly the triples observed as timeout in the
fast pass, and only when retry is enabled; each pending triple appears exactly
once in the retry pass's probe sequence; the retry pass never adds to the
retry set (a retry-pass timeout is only counted); and with retry disabled the
run is the fast pass alone, with an empty retry set and no extra probes. -/
theorem retry_set_semantics (retry : Bool) (E1 : List Event) (its : List Triple)
    (f : Triple → Outcome) (n : Nat)
    (hits : its.Perm (runPass retry 1 E1 (initState n)).timeouts) :
    (∀ tr : Triple, tr ∈ (runPass retry 1 E1 (initState n)).timeouts ↔
        retry = true ∧ ∃ ev ∈ E1, ev.state = .timeout ∧ (ev.ti, ev.ip, ev.port) = tr) ∧
    (∀ tr ∈ (runPass retry 1 E1 (initState n)).timeouts, its.count tr = 1) ∧
    (runScan retry E1 its f n).timeouts = (runPass retry 1 E1 (initState n)).timeouts ∧
    (retry = false →
      runScan retry E1 its f n = runPass retry 1 E1 (initState n) ∧
      (runPass retry 1 E1 (initState n)).timeouts = [] ∧
      (runScan retry E1 its f n).probes_done = E1.length) := by
  have hmem : ∀ tr : Triple, tr ∈ (runPass retry 1 E1 (initState n)).timeouts ↔
      retry = true ∧ ∃ ev ∈ E1, ev.state = .timeout ∧ (ev.ti, ev.ip, ev.port) = tr := by
    intro tr
    rw [runPass_timeouts_mem_iff retry E1 (initState n) tr]
    simp [initState]
  have hnd : (runPass retry 1 E1 (initState n)).timeouts.Nodup :=
    runPass_timeouts_nodup retry 1 E1 (initState n) (by simp [initState])
  have hscan : (runScan retry E1 its f n).timeouts
      = (runPass retry 1 E1 (initState n)).timeouts := by
    simp only [runScan]
    split
    · exact runPass_timeouts_not_pass1 retry 2 _ _ (by simp)
    · rfl
  refine ⟨hmem, ?_, hscan, ?_⟩
  · intro tr htr
    exact count_one_of_nodup its tr ((hits.nodup_iff).mpr hnd) (hits.mem_iff.mpr htr)
  · intro hret
    subst hret
    have hrun : runScan false E1 its f n = runPass false 1 E1 (initState n) := by
      simp only [runScan]
      rw [if_neg (by simp)]
    refine ⟨hrun, ?_, ?_⟩
    · rw [List.eq_nil_iff_forall_not_mem]
      intro tr htr
      exact absurd ((hmem tr).mp htr).1 (by simp)
    · rw [hrun, runPass_probes_done]
      simp [initState]

/-- Witness for C3: one fast-pass timeout with retry enabled, retried once. -/
theorem retry_set_semantics_witness :
    ([((0 : Nat), ipA, (80 : Nat))] : List Triple).Perm
        (runPass true 1 [Event.mk 0 ipA 80 .timeout] (initState 1)).timeouts ∧
    ((∀ tr : Triple,
        tr ∈ (runPass true 1 [Event.mk 0 ipA 80 .timeout] (initState 1)).timeouts ↔
        true = true ∧ ∃ ev ∈ [Event.mk 0 ipA 80 .timeout],
          ev.state = .timeout ∧ (ev.ti, ev.ip, ev.port) = tr) ∧
      (∀ tr ∈ (runPass true 1 [Event.mk 0 ipA 80 .timeout] (initState 1)).timeouts,
        ([((0 : Nat), ipA, (80 : Nat))] : List Triple).count tr = 1) ∧
      (runScan true [Event.mk 0 ipA 80 .timeout] [(0, ipA, 80)]
          (fun _ => .timeout) 1).timeouts
        = (runPass true 1 [Event.mk 0 ipA 80 .timeout] (initState 1)).timeouts ∧
      (true = false →
        runScan true [Event.mk 0 ipA 80 .timeout] [(0, ipA, 80)] (fun _ => .timeout) 1
          = runPass true 1 [Event.mk 0 ipA 80 .timeout] (initState 1) ∧
        (runPass true 1 [Event.mk 0 ipA 80 .timeout] (initState 1)).timeouts = [] ∧
        (runScan true [Event.mk 0 ipA 80 .timeout] [(0, ipA, 80)]
            (fun _ => .timeout) 1).probes_done
          = ([Event.mk 0 ipA 80 .timeout] : List Event).length)) :=
  ⟨by decide,
    retry_set_semantics true [Event.mk 0 ipA 80 .timeout] [(0, ipA, 80)]
      (fun _ => .timeout) 1 (by decide)⟩

/-! ## Resolver

`Resolver.resolve` (porter.py lines 227-260) embedded with two oracles:
`isLit` models `ipaddress.ip_address(target)` succeeding (the target is a
literal IP), and `gai` models `loop.getaddrinfo`, indexed by how many real
getaddrinfo calls for that target have already happened (`none` = gaierror).
The state carries the cache dict and a log of the real getaddrinfo calls. -/

inductive Fam where
  | inet
  | inet6
  | other
deriving DecidableEq, Repr

structure AddrInfo where
  fam : Fam
  ip : String
deriving DecidableEq, Repr

/-- First-occurrence deduplication, the semantics of
`list(dict.fromkeys(...))`. -/
def dedupFirst {α : Type} [DecidableEq α] : List α → List α
  | [] => []
  | a :: l => a :: dedupFirst (l.filter (fun x => x ≠ a))
termination_by l => l.length
decreasing_by
  simp only [List.length_cons]
  exact Nat.lt_succ_of_le (List.length_filter_le _ l)

/-- The IPv4 addresses of a getaddrinfo result, in discovery order
(the `v4` list built by the loop in `Resolver.resolve`). -/
def v4Of (infos : List AddrInfo) : List String :=
  (infos.filter (fun a => a.fam = Fam.inet)).map AddrInfo.ip

/-- The IPv6 addresses of a getaddrinfo result, in discovery order. -/
def v6Of (infos : List AddrInfo) : List String :=
  (infos.filter (fun a => a.fam = Fam.inet6)).map AddrInfo.ip

structure RState where
  cache : List (String × List String)
  ioLog : List String
deriving DecidableEq, Repr

/-- Lookup in the resolver's cache dict. -/
def lookupCache (c : List (String × List String)) (t : String) : Option (List String) :=
  (c.find? (fun p => p.1 = t)).map Prod.snd

/-- Embedding of `Resolver.resolve`: cache hit returns the memoized list with
no I/O; a literal IP is cached as a singleton; otherwise one getaddrinfo call
is made, its result partitioned into v4 then v6, deduplicated keeping first
occurrences, and the outcome — including the empty list on gaierror — is
cached under the exact target string. -/
def Resolver.resolve (isLit : String → Bool)
    (gai : String → Nat → Option (List AddrInfo))
    (st : RState) (t : String) : List String × RState :=
  match lookupCache st.cache t with
  | some ips => (ips, st)
  | none =>
    if isLit t then ([t], { st with cache := (t, [t]) :: st.cache })
    else
      match gai t (st.ioLog.count t) with
      | some infos =>
          (dedupFirst (v4Of infos ++ v6Of infos),
            { cache := (t, dedupFirst (v4Of infos ++ v6Of infos)) :: st.cache,
              ioLog := st.ioLog ++ [t] })
      | none => ([], { cache := (t, []) :: st.cache, ioLog := st.ioLog ++ [t] })

/-- Embedding of `Scanner.resolve_all` (porter.py lines 392-406): resolve each
target in order; on an empty result, resolve a second time (the code sleeps
100ms in between); if still empty, record the target index as DNS-failed.
Returns (ips_by_target, dns_failed indices, final resolver state). -/
def resolve_all (isLit : String → Bool)
    (gai : String → Nat → Option (List AddrInfo)) :
    Nat → RState → List String → List (List String) × List Nat × RState
  | _, st, [] => ([], [], st)
  | i, st, t :: ts =>
      let r1 := Resolver.resolve isLit gai st t
      let r2 := if r1.1 = [] then Resolver.resolve isLit gai r1.2 t else r1
      let rest := resolve_all isLit gai (i + 1) r2.2 ts
      if r2.1 = [] then ([] :: rest.1, i :: rest.2.1, rest.2.2)
      else (r2.1 :: rest.1, rest.2.1, rest.2.2)

/-! ### dedupFirst lemmas -/

theorem dedupFirst_sublist {α : Type} [DecidableEq α] (l : List α) :
    (dedupFirst l).Sublist l := by
  suffices h : ∀ n (l : List α), l.length = n → (dedupFirst l).Sublist l from h _ l rfl
  intro n
  induction n using Nat.strong_induction_on with
  | _ n ih =>
    intro l hn
    cases l with
    | nil => simp [dedupFirst]
    | cons a t =>
        simp only [dedupFirst]
        refine List.Sublist.cons₂ a ?_
        have hlt : (t.filter (fun x => x ≠ a)).length < n := by
          have := List.length_filter_le (fun x => decide (x ≠ a)) t
          simp only [List.length_cons] at hn
          omega
        exact (ih _ hlt _ rfl).trans (List.filter_sublist t)

theorem mem_dedupFirst {α : Type} [DecidableEq α] (a : α) (l : List α) :
    a ∈ dedupFirst l ↔ a ∈ l := by
  suffices h : ∀ n (l : List α), l.length = n → (a ∈ dedupFirst l ↔ a ∈ l) from h _ l rfl
  intro n
  induction n using Nat.strong_induction_on with
  | _ n ih =>
    intro l hn
    cases l with
    | nil => simp [dedupFirst]
    | cons b t =>
        have hlt : (t.filter (fun x => x ≠ b)).length < n := by
          have := List.length_filter_le (fun x => decide (x ≠ b)) t
          simp only [List.length_cons] at hn
          omega
        simp only [dedupFirst, List.mem_cons]
        rw [ih _ hlt _ rfl]
        by_cases hab : a = b
        · simp [hab]
        · simp [List.mem_filter, hab]

theorem dedupFirst_nodup {α : Type} [DecidableEq α] (l : List α) :
    (dedupFirst l).Nodup := by
  suffices h : ∀ n (l : List α), l.length = n → (dedupFirst l).Nodup from h _ l rfl
  intro n
  induction n using Nat.strong_induction_on with
  | _ n ih =>
    intro l hn
    cases l with
    | nil => simp [dedupFirst]
    | cons b t =>
        have hlt : (t.filter (fun x => x ≠ b)).length < n := by
          have := List.length_filter_le (fun x => decide (x ≠ b)) t
          simp only [List.length_cons] at hn
          omega
        simp only [dedupFirst, List.nodup_cons]
        constructor
        · rw [mem_dedupFirst]
          simp [List.mem_filter]
        · exact ih _ hlt _ rfl

theorem dedupFirst_append_split {α : Type} [DecidableEq α] (A B : List α) :
    ∃ C, dedupFirst (A ++ B) = dedupFirst A ++ C ∧ C.Sublist B ∧ ∀ x ∈ C, x ∉ A := by
  suffices h : ∀ n (A B : List α), A.length = n →
      ∃ C, dedupFirst (A ++ B) = dedupFirst A ++ C ∧ C.Sublist B ∧ ∀ x ∈ C, x ∉ A from
    h _ A B rfl
  intro n
  induction n using Nat.strong_induction_on with
  | _ n ih =>
    intro A B hn
    cases A with
    | nil => exact ⟨dedupFirst B, by simp [dedupFirst], dedupFirst_sublist B, by simp⟩
    | cons a A2 =>
        have hlt : (A2.filter (fun x => x ≠ a)).length < n := by
          have := List.length_filter_le (fun x => decide (x ≠ a)) A2
          simp only [List.length_cons] at hn
          omega
        obtain ⟨C, hC, hsub, hmem⟩ :=
          ih _ hlt (A2.filter (fun x => x ≠ a)) (B.filter (fun x => x ≠ a)) rfl
        refine ⟨C, ?_, hsub.trans (List.filter_sublist B), ?_⟩
        · rw [List.cons_append]
          simp only [dedupFirst, List.filter_append, List.cons_append]
          rw [hC]
        · intro x hx
          have hxB : x ∈ B.filter (fun y => y ≠ a) := hsub.subset hx
          have hxa : x ≠ a := by
            have := (List.mem_filter.mp hxB).2
            simpa using this
          intro hxA
          rcases List.mem_cons.mp hxA with rfl | hxA2
          · exact hxa rfl
          · exact hmem x hx (List.mem_filter.mpr ⟨hxA2, by simpa using hxa⟩)

/-! ### Resolver lemmas and claims -/

theorem lookupCache_cons_self (c : List (String × List String)) (t : String)
    (ips : List String) : lookupCache ((t, ips) :: c) t = some ips := by
  unfold lookupCache
  rw [List.find?_cons_of_pos _ (by simp)]
  rfl

theorem resolve_cache_hit (isLit : String → Bool)
    (gai : String → Nat → Option (List AddrInfo)) (st : RState) (t : String)
    (ips : List String) (h : lookupCache st.cache t = some ips) :
    Resolver.resolve isLit gai st t = (ips, st) := by
  simp only [Resolver.resolve, h]

/-- C8: on a target not yet in the cache, `Resolver.resolve`:
caches whatever it returns under the exact target string, so that a second
call is a pure cache hit returning the same list with no state change and no
further resolution I/O; returns `[target]` when the target is a literal IP;
returns `[]` (not an exception) when name resolution fails; and on success
returns the first-occurrence deduplication of the IPv4 results followed by
the IPv6 results — a duplicate-free list splitting as the deduplicated IPv4
group (discovery order preserved) followed by IPv6-only addresses in
discovery order. -/
theorem resolve_contract (isLit : String → Bool)
    (gai : String → Nat → Option (List AddrInfo)) (st : RState) (t : String)
    (hf : lookupCache st.cache t = none) :
    (lookupCache (Resolver.resolve isLit gai st t).2.cache t
        = some (Resolver.resolve isLit gai st t).1) ∧
    (Resolver.resolve isLit gai (Resolver.resolve isLit gai st t).2 t
        = ((Resolver.resolve isLit gai st t).1, (Resolver.resolve isLit gai st t).2)) ∧
    (isLit t = true → (Resolver.resolve isLit gai st t).1 = [t]) ∧
    (isLit t = false → gai t (st.ioLog.count t) = none →
        (Resolver.resolve isLit gai st t).1 = []) ∧
    (∀ infos, isLit t = false → gai t (st.ioLog.count t) = some infos →
        (Resolver.resolve isLit gai st t).1 = dedupFirst (v4Of infos ++ v6Of infos) ∧
        (Resolver.resolve isLit gai st t).1.Nodup ∧
        ∃ C, (Resolver.resolve isLit gai st t).1 = dedupFirst (v4Of infos) ++ C ∧
          C.Sublist (v6Of infos) ∧ ∀ x ∈ C, x ∉ v4Of infos) := by
  by_cases hlit : isLit t = true
  · have hres : Resolver.resolve isLit gai st t
        = ([t], { st with cache := (t, [t]) :: st.cache }) := by
      simp only [Resolver.resolve, hf, hlit, if_true]
    refine ⟨?_, ?_, fun _ => by rw [hres], ?_, ?_⟩
    · rw [hres]
      exact lookupCache_cons_self st.cache t [t]
    · rw [hres]
      exact resolve_cache_hit isLit gai _ t [t] (lookupCache_cons_self st.cache t [t])
    · intro h
      rw [h] at hlit
      exact absurd hlit (by simp)
    · intro infos h
      rw [h] at hlit
      exact absurd hlit (by simp)
  · have hlitf : isLit t = false := by
      cases hb : isLit t
      · rfl
      · exact absurd hb hlit
    cases hg : gai t (st.ioLog.count t) with
    | none =>
        have hres : Resolver.resolve isLit gai st t
            = ([], { cache := (t, []) :: st.cache, ioLog := st.ioLog ++ [t] }) := by
          simp only [Resolver.resolve, hf, hlitf, if_false, Bool.false_eq_true, hg]
        refine ⟨?_, ?_, ?_, fun _ _ => by rw [hres], ?_⟩
        · rw [hres]
          exact lookupCache_cons_self st.cache t []
        · rw [hres]
          exact resolve_cache_hit isLit gai _ t [] (lookupCache_cons_self st.cache t [])
        · intro h
          exact absurd (hlitf.symm.trans h) (by decide)
        · intro infos _ h
          exact absurd h (by simp)
    | some infos =>
        have hres : Resolver.resolve isLit gai st t
            = (dedupFirst (v4Of infos ++ v6Of infos),
                { cache := (t, dedupFirst (v4Of infos ++ v6Of infos)) :: st.cache,
                  ioLog := st.ioLog ++ [t] }) := by
          simp only [Resolver.resolve, hf, hlitf, if_false, Bool.false_eq_true, hg]
        refine ⟨?_, ?_, ?_, ?_, ?_⟩
        · rw [hres]
          exact lookupCache_cons_self st.cache t _
        · rw [hres]
          exact resolve_cache_hit isLit gai _ t _ (lookupCache_cons_self st.cache t _)
        · intro h
          exact absurd (hlitf.symm.trans h) (by decide)
        · intro _ h
          exact absurd h (by simp)
        · intro infos2 _ h
          injection h with h
          subst h
          obtain ⟨C, hC, hsub, hmem⟩ := dedupFirst_append_split (v4Of infos) (v6Of infos)
          exact ⟨by rw [hres], by rw [hres]; exact dedupFirst_nodup _,
            C, by rw [hres, hC], hsub, hmem⟩

/-- Witness for C8: resolving a fresh literal-IP target on an empty cache. -/
theorem resolve_contract_witness :
    lookupCache (RState.mk [] []).cache ipA = none ∧
    ((lookupCache (Resolver.resolve (fun s => s == ipA) (fun _ _ => none)
          (RState.mk [] []) ipA).2.cache ipA
        = some (Resolver.resolve (fun s => s == ipA) (fun _ _ => none)
            (RState.mk [] []) ipA).1) ∧
      (Resolver.resolve (fun s => s == ipA) (fun _ _ => none)
          (Resolver.resolve (fun s => s == ipA) (fun _ _ => none)
            (RState.mk [] []) ipA).2 ipA
        = ((Resolver.resolve (fun s => s == ipA) (fun _ _ => none)
              (RState.mk [] []) ipA).1,
            (Resolver.resolve (fun s => s == ipA) (fun _ _ => none)
              (RState.mk [] []) ipA).2)) ∧
      ((fun s => s == ipA) ipA = true →
        (Resolver.resolve (fun s => s == ipA) (fun _ _ => none)
            (RState.mk [] []) ipA).1 = [ipA]) ∧
      ((fun s => s == ipA) ipA = false →
        (fun (_ : String) (_ : Nat) => (none : Option (List AddrInfo))) ipA
            ((RState.mk [] []).ioLog.count ipA) = none →
        (Resolver.resolve (fun s => s == ipA) (fun _ _ => none)
            (RState.mk [] []) ipA).1 = []) ∧
      (∀ infos, (fun s => s == ipA) ipA = false →
        (fun (_ : String) (_ : Nat) => (none : Option (List AddrInfo))) ipA
            ((RState.mk [] []).ioLog.count ipA) = some infos →
        (Resolver.resolve (fun s => s == ipA) (fun _ _ => none)
            (RState.mk [] []) ipA).1 = dedupFirst (v4Of infos ++ v6Of infos) ∧
        (Resolver.resolve (fun s => s == ipA) (fun _ _ => none)
            (RState.mk [] []) ipA).1.Nodup ∧
        ∃ C, (Resolver.resolve (fun s => s == ipA) (fun _ _ => none)
            (RState.mk [] []) ipA).1 = dedupFirst (v4Of infos) ++ C ∧
          C.Sublist (v6Of infos) ∧ ∀ x ∈ C, x ∉ v4Of infos)) :=
  ⟨rfl, resolve_contract (fun s => s == ipA) (fun _ _ => none) (RState.mk [] []) ipA rfl⟩

/-! ### C4: the one-shot DNS retry against a transient failure -/

/-- A hostname whose first resolution fails transiently. -/
def hostA : String := "example.com"

/-- The address the second resolution attempt would return. -/
def ipB : String := "93.184.216.34"

/-- getaddrinfo oracle: fails on the first call for `hostA`, succeeds on the
second (a transient resolver hiccup). -/
def gaiTransient : String → Nat → Option (List AddrInfo) :=
  fun t n => if t = hostA ∧ n = 1 then some [AddrInfo.mk Fam.inet ipB] else none

/-- C4 evaluated at the failing input: the first resolution fails and caches
`[]`; the orchestrator's delayed second `resolve` call is a pure cache hit on
that memoized empty result (only ONE real getaddrinfo call is ever logged),
so the target is marked DNS-failed even though the second getaddrinfo attempt
would have returned an address — the one-shot retry never re-performs name
resolution. -/
theorem dns_retry_is_cache_hit :
    (resolve_all (fun _ => false) gaiTransient 0 (RState.mk [] []) [hostA]).2.1 = [0] ∧
    (resolve_all (fun _ => false) gaiTransient 0 (RState.mk [] []) [hostA]).2.2.ioLog
      = [hostA] ∧
    gaiTransient hostA 1 = some [AddrInfo.mk Fam.inet ipB] :=
  ⟨rfl, rfl, rfl⟩

/-! ## Early termination on configuration errors (C9) -/

/-- The exit status and performed-probe count of one porter run, following
`main` (porter.py lines 682-685) and `Scanner.run` (lines 471-478): an empty
port set prints an error and exits with status 2 before the scanner is even
built; a run in which every target failed DNS returns from `Scanner.run`
before any pass, after which `main` renders the summary and finishes
normally with exit status 0. -/
def mainModel (ports : List Nat) (resolved : List (List String)) (retry : Bool)
    (E1 : List Event) (its : List Triple) (f : Triple → Outcome) : Nat × Nat :=
  if ports = [] then (2, 0)
  else if (resolved.filter (fun ips => ips ≠ [])).length = 0 then (0, 0)
  else (0, (runScan retry E1 its f resolved.length).probes_done)

/-- C9 counterexample: with ports to scan but a single target that resolves
to nothing, the run does end early with zero probes — but the exit status is
0, not the non-zero exit the claim requires. -/
theorem no_resolvable_targets_exit_status_zero :
    mainModel [80] [[]] true [] [] (fun _ => .timeout) = (0, 0) ∧
    ¬(mainModel [80] [[]] true [] [] (fun _ => .timeout)).1 ≠ 0 :=
  ⟨rfl, fun h2 => h2 rfl⟩

/-- C9 amended: an empty port set terminates the run with exit status 2
before any probe is performed; a run in which no target resolves ends early
with zero probes performed, but finishes with the normal exit status 0
(a "nothing to scan" outcome, not an error exit). -/
theorem config_error_early_termination (ports : List Nat)
    (resolved : List (List String)) (retry : Bool) (E1 : List Event)
    (its : List Triple) (f : Triple → Outcome) :
    (ports = [] → mainModel ports resolved retry E1 its f = (2, 0)) ∧
    (ports ≠ [] → (∀ ips ∈ resolved, ips = []) →
        mainModel ports resolved retry E1 its f = (0, 0)) := by
  constructor
  · intro h
    subst h
    rfl
  · intro h hall
    have hz : (resolved.filter (fun ips => ips ≠ [])).length = 0 := by
      have hn : resolved.filter (fun ips => ips ≠ []) = [] := by
        rw [List.filter_eq_nil_iff]
        intro ips hip
        simpa using hall ips hip
      rw [hn]
      rfl
    unfold mainModel
    rw [if_neg h, if_pos hz]

/-- Witness for the amended C9 at concrete runs: an empty port list, and a
port list with one unresolvable target. -/
theorem config_error_early_termination_witness :
    mainModel [] [[ipA]] true [] [] (fun _ => .timeout) = (2, 0) ∧
    mainModel [80] [[]] true [] [] (fun _ => .timeout) = (0, 0) :=
  ⟨(config_error_early_termination [] [[ipA]] true [] [] (fun _ => .timeout)).1 rfl,
   (config_error_early_termination [80] [[]] true [] [] (fun _ => .timeout)).2
      (by simp) (by decide)⟩

/-! ## The retry-pass producer (C6) -/

/-- Default string for out-of-range indexing (never reached on real runs). -/
def strEmpty : String := ""

/-- Embedding of `producer2` (porter.py lines 496-500): one task per triple of
the retry set, enqueued in the set's iteration order, each paired with its
target string.  No reordering of any kind is applied. -/
def producer2Tasks (targets : List String) (its : List Triple) :
    List (Nat × String × String × Nat) :=
  its.map (fun tr => (tr.1, targets.getD tr.1 strEmpty, tr.2.1, tr.2.2))

/-- C6 counterexample: a reachable retry set (fast-pass timeouts on ports
8080 then 80 of one target) iterated in insertion order makes the retry
producer enqueue port 8080 before port 80, which violates the popular-first
priority ordering (80 has popular rank 0, 8080 rank 17): the retry pass does
NOT re-derive the priority ordering over the retry set's ports. -/
theorem retry_producer_not_priority_ordered :
    (runPass true 1 [Event.mk 0 ipA 8080 .timeout, Event.mk 0 ipA 80 .timeout]
        (initState 1)).timeouts = [(0, ipA, 8080), (0, ipA, 80)] ∧
    (producer2Tasks [ipA] [(0, ipA, 8080), (0, ipA, 80)]).map
        (fun x => x.2.2.2) = [8080, 80] ∧
    ¬ List.Pairwise (fun a b => pairLe (portKey a) (portKey b) = true) [8080, 80] := by
  refine ⟨by decide, by decide, ?_⟩
  intro h
  rw [List.pairwise_cons] at h
  have h2 := h.1 80 (by simp)
  revert h2
  decide

/-- C6 amended: the retry-pass producer enqueues exactly one task per pending
triple, in the retry set's iteration order — projecting the task sequence
back onto triples returns the iteration order unchanged, and each pending
triple's task appears exactly once; no priority reordering is re-derived. -/
theorem retry_producer_enqueues_iteration_order (targets : List String)
    (its : List Triple) (h : its.Nodup) :
    (producer2Tasks targets its).map (fun x => (x.1, x.2.2)) = its ∧
    ∀ tr ∈ its, (producer2Tasks targets its).count
        (tr.1, targets.getD tr.1 strEmpty, tr.2.1, tr.2.2) = 1 := by
  have hinj : Function.Injective
      (fun (tr : Triple) => (tr.1, targets.getD tr.1 strEmpty, tr.2.1, tr.2.2)) := by
    intro a b hab
    obtain ⟨a1, a2, a3⟩ := a
    obtain ⟨b1, b2, b3⟩ := b
    simp only [Prod.mk.injEq] at hab
    simp [hab.1, hab.2.2.1, hab.2.2.2]
  constructor
  · simp only [producer2Tasks, List.map_map]
    have hcomp : ((fun (x : Nat × String × String × Nat) => (x.1, x.2.2)) ∘
        (fun (tr : Triple) => (tr.1, targets.getD tr.1 strEmpty, tr.2.1, tr.2.2)))
        = id := by
      funext tr
      obtain ⟨a1, a2, a3⟩ := tr
      rfl
    rw [hcomp, List.map_id]
  · intro tr htr
    exact count_one_of_nodup _ _ (List.Nodup.map hinj h)
      (List.mem_map_of_mem _ htr)

/-- Witness for the amended C6 at a concrete two-element retry set. -/
theorem retry_producer_enqueues_iteration_order_witness :
    ([((0 : Nat), ipA, (8080 : Nat)), (0, ipA, 80)] : List Triple).Nodup ∧
    ((producer2Tasks [ipA] [(0, ipA, 8080), (0, ipA, 80)]).map
        (fun x => (x.1, x.2.2)) = [(0, ipA, 8080), (0, ipA, 80)] ∧
      ∀ tr ∈ ([((0 : Nat), ipA, (8080 : Nat)), (0, ipA, 80)] : List Triple),
        (producer2Tasks [ipA] [(0, ipA, 8080), (0, ipA, 80)]).count
          (tr.1, ([ipA] : List String).getD tr.1 strEmpty, tr.2.1, tr.2.2) = 1) :=
  ⟨by decide,
    retry_producer_enqueues_iteration_order [ipA] [(0, ipA, 8080), (0, ipA, 80)]
      (by decide)⟩
